import Mathlib

/-!
Shallow embedding of `maildir_to_mbox.py`, a one-shot Maildir → mbox
conversion script, together with theorems settling the specification
claims about it.

Modelling conventions:
* Filesystem directory trees are the mutual inductive `Dir`/`DirList`:
  a directory has a list of plain-file names and a list of named
  subdirectories.  `os.walk` becomes `walkSegs`, which enumerates every
  directory of the tree together with its path segments relative to the
  walk root.  A missing (or non-directory) root is `Option.none`:
  `os.walk` on such a path yields nothing, because its default
  `onerror=None` ignores the initial `scandir` failure.
* Python strings are `String`; Python compares strings lexicographically
  by code point, embedded as the executable comparator `strLe`.
  `list.sort()` / `sorted()` (a stable sort by that order) is embedded as
  `List.insertionSort`, which is also stable, hence extensionally the
  same function on lists of strings.
* `os.sep` is `'/'` (the script targets POSIX Maildir trees).
* Fallible library operations (message parsing, raw reads, mbox appends,
  flush, close) are modelled by Boolean success oracles supplied per
  folder and per key; an exception raised by the progress `print` inside
  the per-folder loop is modelled by the `intr` oracle.  The script's
  own control flow over those outcomes is embedded faithfully.
-/

namespace MaildirToMbox

/-- Lexicographic order on code-point lists: the order Python uses to
compare strings, in executable form. -/
def lexLe : List Char → List Char → Bool
  | [], _ => true
  | _ :: _, [] => false
  | a :: as, b :: bs =>
    if a.toNat < b.toNat then true
    else if b.toNat < a.toNat then false
    else lexLe as bs

/-- Python string comparison `a <= b` (code-point lexicographic). -/
def strLe (a b : String) : Bool := lexLe a.data b.data

/-- Embedding of Python `sorted()` / `list.sort()` on strings: a stable
sort by code-point lexicographic order. -/
def sortStrings (l : List String) : List String :=
  List.insertionSort (fun a b => strLe a b = true) l

/-- Embeds the loop `while rel.startswith("."): rel = rel[1:]` of
`mbox_filename`: drop leading dot characters from the front. -/
def stripDotsList : List Char → List Char
  | [] => []
  | c :: rest => if c == '.' then stripDotsList rest else c :: rest

/-- Embeds `rel.replace(os.sep, "_")` with `os.sep = '/'`. -/
def sepToUnderscore (l : List Char) : List Char :=
  l.map fun c => if c == '/' then '_' else c

/-- Embedding of `mbox_filename(src_root, maildir_root)` as a function of
`rel = os.path.relpath(maildir_root, src_root)` (which is `"."` exactly
when the maildir is the source root itself). -/
def mbox_filename (rel : String) : String :=
  if rel == "." then "Inbox" ++ ".mbox"
  else
    let stripped := String.mk (stripDotsList rel.data)
    let name := String.mk (sepToUnderscore stripped.data)
    (if name == "" then "Inbox" else name) ++ ".mbox"

/-- Relative path string for a maildir found at the given segments below
the source root: what `os.path.relpath(maildir_root, src_root)` returns
for the paths produced by `os.walk` (`"."` at the root itself). -/
def joinRel : List String → String
  | [] => "."
  | s :: rest => rest.foldl (fun acc n => acc ++ "/" ++ n) s

/-- Name Mapper restated from the amended wording of claim C2: drop the
leading dot characters of the whole relative path with `dropWhile`, then
flatten separators.  Compared against `mbox_filename` for the
refinement theorem of C2. -/
def mboxNameCharStripSpec (rel : String) : String :=
  if rel == "." then "Inbox.mbox"
  else
    let name := String.mk ((rel.data.dropWhile fun c => c == '.').map
      fun c => if c == '/' then '_' else c)
    (if name == "" then "Inbox" else name) ++ ".mbox"

/-- Splitting of a relative path into separator-delimited segments, on
code-point lists (used only by the claim-side Name Mapper below). -/
def splitSegs : List Char → List (List Char)
  | [] => [[]]
  | c :: rest =>
    match splitSegs rest with
    | [] => [[c]]
    | s :: ss => if c == '/' then [] :: s :: ss else (c :: s) :: ss

/-- Does a path segment begin with a dot character? -/
def segStartsDot : List Char → Bool
  | [] => false
  | c :: _ => c == '.'

/-- Removal of leading dot-segments, as the original claim C2 words it:
repeatedly remove whole separator-delimited segments that begin with a
dot from the front of the segment list. -/
def stripDotSegs : List (List Char) → List (List Char)
  | [] => []
  | s :: rest => if segStartsDot s then stripDotSegs rest else s :: rest

/-- Join segments with underscores (the flattening step of claim C2's
wording, applied after whole-segment stripping). -/
def joinUnderscore : List (List Char) → List Char
  | [] => []
  | [s] => s
  | s :: rest => s ++ '_' :: joinUnderscore rest

/-- Name Mapper as the original claim C2 states it: strip leading
dot-SEGMENTS (not just leading dot characters), then flatten.  This is
the claim-side definition the counterexample compares against. -/
def mboxNameSegStripClaim (rel : String) : String :=
  if rel == "." then "Inbox.mbox"
  else
    let name := String.mk (joinUnderscore (stripDotSegs (splitSegs rel.data)))
    (if name == "" then "Inbox" else name) ++ ".mbox"

/-! Directory tree: a directory holds plain-file names and named
subdirectories.  (A plain file named `cur` would not satisfy
`os.path.isdir`, so files and subdirectories are kept apart.) -/
mutual
inductive Dir where
  | node (files : List String) (sub : DirList)
inductive DirList where
  | nil
  | cons (name : String) (d : Dir) (rest : DirList)
end

/-- Find the subdirectory with the given name, if any. -/
def DirList.lookup : DirList → String → Option Dir
  | .nil, _ => none
  | .cons n d rest, name => if n == name then some d else rest.lookup name

/-- Subdirectory lookup on a directory node. -/
def Dir.lookup : Dir → String → Option Dir
  | .node _ sub, name => sub.lookup name

/-- Plain-file names of a directory node (its `os.listdir` entries that
are not subdirectories). -/
def Dir.files : Dir → List String
  | .node fs _ => fs

/-- Embedding of `is_maildir(path)`:
`all(os.path.isdir(os.path.join(path, d)) for d in ("cur", "new", "tmp"))`. -/
def is_maildir (d : Dir) : Bool :=
  ((d.lookup "cur").isSome && (d.lookup "new").isSome) && (d.lookup "tmp").isSome

/-! Embedding of `os.walk`: enumerate every directory of the tree (the
walk root first), paired with its path segments relative to the root. -/
mutual
def walkSegs (pre : List String) : Dir → List (List String × Dir)
  | .node fs sub => (pre, .node fs sub) :: walkChildren pre sub
def walkChildren (pre : List String) : DirList → List (List String × Dir)
  | .nil => []
  | .cons n c rest => walkSegs (pre ++ [n]) c ++ walkChildren pre rest
end

/-- Path string of a directory reached from `root` via `segs`, as
`os.walk` spells it (`os.path.join` at each level). -/
def pathStr (root : String) (segs : List String) : String :=
  segs.foldl (fun acc n => acc ++ "/" ++ n) root

/-- Membership of a named subdirectory in a subdirectory list. -/
inductive DMem : String → Dir → DirList → Prop where
  | head (n : String) (d : Dir) (rest : DirList) : DMem n d (.cons n d rest)
  | tail {n : String} {d : Dir} {m : String} {e : Dir} {rest : DirList} :
      DMem n d rest → DMem n d (.cons m e rest)

/-- Reachability by recursive descent: `Reaches t segs d` holds when the
directory `d` sits at relative path `segs` below the tree `t` (with
`segs = []` for `t` itself). -/
inductive Reaches : Dir → List String → Dir → Prop where
  | refl (d : Dir) : Reaches d [] d
  | step {fs : List String} {sub : DirList} {n : String} {c : Dir}
      {segs : List String} {e : Dir} :
      DMem n c sub → Reaches c segs e → Reaches (.node fs sub) (n :: segs) e

/-- Embedding of `find_maildirs(root)`: walk the tree under `root`, keep
the directories satisfying `is_maildir`, return their path strings
sorted.  `none` is a missing or non-directory root, on which `os.walk`
yields nothing (its default `onerror=None` swallows the scandir error),
so the function returns the empty list rather than raising. -/
def find_maildirs (root : String) : Option Dir → List String
  | none => []
  | some t =>
    sortStrings (((walkSegs [] t).filter fun p => is_maildir p.2).map
      fun p => pathStr root p.1)

/-- Folder Locator as claim C4 states it: on a missing or non-directory
root it fails with a `NotFoundError` instead of returning a result.
Claim-side definition, compared against `find_maildirs`. -/
def find_maildirs_claimSpec (root : String) (fs : Option Dir) :
    Except String (List String) :=
  match fs with
  | none => .error "NotFoundError"
  | some t => .ok (find_maildirs root (some t))

/-- Discovered maildirs with their tree nodes, in the same sorted-by-path
order in which `convert_maildir` iterates the strings returned by
`find_maildirs` (carrying the node embeds the script's subsequent
directory reads at that path). -/
def findMaildirPairs (root : String) (t : Dir) : List (List String × Dir) :=
  List.insertionSort (fun a b => strLe (pathStr root a.1) (pathStr root b.1) = true)
    ((walkSegs [] t).filter fun p => is_maildir p.2)

/-- Tri-state per-message outcome: the strings `"OK"`, `"RAW"`, `"SKIP"`
returned by `add_with_fallback`. -/
inductive Outcome where
  | OK
  | RAW
  | SKIP
deriving DecidableEq, Repr

/-- Record appended to the destination mbox for one message. -/
inductive MboxRec where
  | parsed (key : String)
  | rawBytes (key : String)
  | placeholder (content : String)
deriving DecidableEq, Repr

/-- The exact placeholder bytes built by `add_with_fallback`. -/
def placeholderContent : String :=
  "From: conversion-error\nSubject: Recovered placeholder\n\n<Failed to read original message in Maildir.>"

/-- Success oracles for the fallible library operations performed on one
message: `parseAdd` is `md.get_message(key)` followed by
`mbox_obj.add(m)` succeeding; `rawRead` is `md.get_file(key)` plus
`fh.read()` succeeding; `rawAdd` is `mbox_obj.add(mboxMessage(raw))`
succeeding; `phAdd` is the placeholder `mbox_obj.add` succeeding. -/
structure MsgOps where
  parseAdd : Bool
  rawRead : Bool
  rawAdd : Bool
  phAdd : Bool
deriving DecidableEq, Repr

/-- Embedding of `add_with_fallback(mbox_obj, md, key)`: the three-tier
try/except ladder.  Every Python exception is caught by one of the
`except` arms, which this total function reflects: it always returns an
outcome (paired with the record appended, if any) and has no failure
channel. -/
def add_with_fallback (ops : MsgOps) (key : String) : Outcome × Option MboxRec :=
  if ops.parseAdd then (.OK, some (.parsed key))
  else if ops.rawRead && ops.rawAdd then (.RAW, some (.rawBytes key))
  else if ops.phAdd then (.RAW, some (.placeholder placeholderContent))
  else (.SKIP, none)

/-- Per-folder counters of `convert_maildir`. -/
structure Counts where
  count : Nat
  ok : Nat
  raw : Nat
  skip : Nat
deriving DecidableEq, Repr

/-- Initial counters (`count = 0; ok = raw = skip = 0`). -/
def Counts.zero : Counts := ⟨0, 0, 0, 0⟩

/-- One iteration of the counting block: `count += 1` always, then the
if/elif/else on the outcome bumps exactly one of `ok`, `raw`, `skip`. -/
def Counts.step (c : Counts) (o : Outcome) : Counts :=
  match o with
  | .OK => { c with count := c.count + 1, ok := c.ok + 1 }
  | .RAW => { c with count := c.count + 1, raw := c.raw + 1 }
  | .SKIP => { c with count := c.count + 1, skip := c.skip + 1 }

/-- Observable operations on the destination archive file during one
folder's processing.  `flushTry` and `closeTry` record an ATTEMPT, with
the Boolean telling whether it succeeded; the script swallows the
failure either way. -/
inductive FOp where
  | append (key : String) (o : Outcome)
  | flushTry (ok : Bool)
  | closeTry (ok : Bool)
deriving DecidableEq, Repr

/-- Embedding of the `for key in keys:` loop of `convert_maildir`.
Arguments: per-key operation oracles `ops`; `intr n` tells whether the
progress `print` raises after the `n`-th message (the only statement in
the guarded block that can raise); `fOk n` tells whether the periodic
flush attempted at `count = n` succeeds.  Returns the archive-operation
trace, the final counters, and whether the loop was aborted by an
exception. -/
def runKeys (ops : String → MsgOps) (intr : Nat → Bool) (fOk : Nat → Bool) :
    List String → Counts → List FOp × Counts × Bool
  | [], c => ([], c, false)
  | k :: ks, c =>
    let o := (add_with_fallback (ops k) k).1
    let c2 := c.step o
    if intr c2.count then ([.append k o], c2, true)
    else
      let pre : List FOp :=
        .append k o :: (if c2.count % 200 == 0 then [.flushTry (fOk c2.count)] else [])
      let rest := runKeys ops intr fOk ks c2
      (pre ++ rest.1, rest.2)

/-- Embedding of one folder's processing: the key loop inside
`try:`, then the `finally:` block, which always attempts one flush
(success `ffOk`, failure swallowed) and one close (success `cOk`,
failure swallowed) — also when the loop aborted with an exception. -/
def runFolder (ops : String → MsgOps) (intr : Nat → Bool) (fOk : Nat → Bool)
    (ffOk cOk : Bool) (keys : List String) : List FOp × Counts × Bool :=
  let r := runKeys ops intr fOk keys Counts.zero
  (r.1 ++ [.flushTry ffOk, .closeTry cOk], r.2)

/-- Embedding of the `entries` collection: list the filenames under the
`cur` and `new` subdirectories (skipping a subdirectory that does not
exist), in that order, once. -/
def folderEntries (d : Dir) : List String :=
  (match d.lookup "cur" with
   | some c => c.files
   | none => []) ++
  (match d.lookup "new" with
   | some c => c.files
   | none => [])

/-- Embedding of the key selection of `convert_maildir`: keep the
mailbox-layer keys that match a listed filename; if none match, fall
back to all mailbox-layer keys; sort the result. -/
def selectKeys (entries mdKeys : List String) : List String :=
  let keys := mdKeys.filter fun k => entries.contains k
  sortStrings (if keys.isEmpty then mdKeys else keys)

/-- Per-run oracles: the mailbox layer's key list for the folder at the
given segments (`mailbox.Maildir(mdir).keys()`), the per-message
operation oracles, and the interrupt / flush / close oracles of
`runKeys` and `runFolder`, per folder. -/
structure RunCfg where
  mdKeys : List String → List String
  msgOps : List String → String → MsgOps
  intr : List String → Nat → Bool
  fOk : List String → Nat → Bool
  ffOk : List String → Bool
  cOk : List String → Bool

/-- The keys processed for the folder at `segs` with tree node `d`. -/
def folderKeys (cfg : RunCfg) (segs : List String) (d : Dir) : List String :=
  selectKeys (folderEntries d) (cfg.mdKeys segs)

/-- Result of processing one folder, as recorded by the run: the
folder's segments below the root, the destination archive filename, the
key list it processed, the archive-operation trace, and the final
counters. -/
structure FolderResult where
  segs : List String
  outName : String
  keys : List String
  trace : List FOp
  counts : Counts
deriving DecidableEq, Repr

/-- Embedding of the `for mdir in maildirs:` loop: process each folder
in order, accumulating `msg_total` (incremented once per processed
message, regardless of outcome).  If a folder's loop aborted with an
exception, the exception propagates after that folder's `finally`, so
the remaining folders are not processed and the abort flag is true. -/
def convertFolders (cfg : RunCfg) :
    List (List String × Dir) → Nat → Nat × List FolderResult × Bool
  | [], total => (total, [], false)
  | (segs, d) :: rest, total =>
    let keys := folderKeys cfg segs d
    let r := runFolder (cfg.msgOps segs) (cfg.intr segs) (cfg.fOk segs)
      (cfg.ffOk segs) (cfg.cOk segs) keys
    let fr : FolderResult :=
      ⟨segs, mbox_filename (joinRel segs), keys, r.1, r.2.1⟩
    if r.2.2 then (total + r.2.1.count, [fr], true)
    else
      let rec2 := convertFolders cfg rest (total + r.2.1.count)
      (rec2.1, fr :: rec2.2.1, rec2.2.2)

/-- Embedding of `convert_maildir(root, dst_dir, ...)`: discover the
maildirs; if none, print and return 0; otherwise process each folder
and return `msg_total`. -/
def convert_maildir (root : String) (cfg : RunCfg) (t : Dir) :
    Nat × List FolderResult × Bool :=
  let mds := findMaildirPairs root t
  if mds.isEmpty then (0, [], false)
  else convertFolders cfg mds 0

/-- The `msg_total` that `main` receives: 0 when the source tree is
missing (that branch is unreachable in `main`, which has already
exited). -/
def runTotal (src : String) (fs : Option Dir) (cfg : RunCfg) : Nat :=
  match fs with
  | none => 0
  | some t => (convert_maildir src cfg t).1

/-- Embedding of `main()` as its process exit status.  `src` and `dst`
are the stripped prompt answers; `fs` is the tree at `src` (`none` when
`os.path.isdir(src)` is false).  `os.makedirs(dst)` is assumed to
succeed.  An exception that escapes `convert_maildir` (abort flag) makes
the interpreter exit with status 1 (uncaught traceback); otherwise
`sys.exit(2)` fires exactly when `convert_maildir` returned 0, and
falling off the end of `main` exits with status 0. -/
def main_run (src dst : String) (fs : Option Dir) (cfg : RunCfg) : Nat :=
  if src == "" then 1
  else
    match fs with
    | none => 1
    | some t =>
      if dst == "" then 1
      else
        let r := convert_maildir src cfg t
        if r.2.2 then 1
        else if r.1 == 0 then 2 else 0

/-- A configuration with the interrupt oracle forced off: the normal run
in which no progress `print` raises. -/
def noIntr (cfg : RunCfg) : RunCfg :=
  { cfg with intr := fun _ _ => false }

/-- A configuration with the flush / final-flush / close oracles
replaced, everything else unchanged. -/
def withFlush (cfg : RunCfg) (f : List String → Nat → Bool)
    (g h : List String → Bool) : RunCfg :=
  { cfg with fOk := f, ffOk := g, cOk := h }

/-- Is a trace element a flush attempt? -/
def isFlush : FOp → Bool
  | .flushTry _ => true
  | _ => false

/-- Is a trace element a message append? -/
def isAppend : FOp → Bool
  | .append _ _ => true
  | _ => false

/-- The flush/close-independent part of a folder result: which folder
was processed, under what archive name, with which keys, what was
counted, and which records were appended. -/
def frKey (fr : FolderResult) :
    List String × String × List String × Counts × List FOp :=
  (fr.segs, fr.outName, fr.keys, fr.counts, fr.trace.filter isAppend)

/-- A directory with no files and no subdirectories. -/
def emptyD : Dir := .node [] .nil

/-- Concrete input: a source root that is itself a maildir whose `cur`
holds one message file `m1`. -/
def t0 : Dir := .node []
  (.cons "cur" (.node ["m1"] .nil) (.cons "new" emptyD (.cons "tmp" emptyD .nil)))

/-- Concrete oracles: the mailbox layer knows key `m1`; every fallible
per-message operation fails (all three tiers fail, so the message is
skipped); flush and close succeed; no interrupts. -/
def cfg0 : RunCfg :=
  { mdKeys := fun _ => ["m1"]
    msgOps := fun _ _ => ⟨false, false, false, false⟩
    intr := fun _ _ => false
    fOk := fun _ _ => true
    ffOk := fun _ => true
    cOk := fun _ => true }

/-! Helper lemmas shared by the claim theorems. -/

theorem lexLe_total : ∀ a b, lexLe a b = true ∨ lexLe b a = true
  | [], _ => .inl rfl
  | _ :: _, [] => .inr rfl
  | a :: as, b :: bs => by
    simp only [lexLe]
    by_cases h1 : a.toNat < b.toNat
    · left; simp [h1]
    · by_cases h2 : b.toNat < a.toNat
      · right; simp [h2, h1]
      · cases lexLe_total as bs with
        | inl ih => left; simp [h1, h2, ih]
        | inr ih => right; simp [h1, h2, ih]

theorem lexLe_trans : ∀ a b c, lexLe a b = true → lexLe b c = true → lexLe a c = true
  | [], _, _, _, _ => rfl
  | _ :: _, [], _, h1, _ => by simp [lexLe] at h1
  | _ :: _, _ :: _, [], _, h2 => by simp [lexLe] at h2
  | x :: xs, y :: ys, z :: zs, h1, h2 => by
    simp only [lexLe] at h1 h2 ⊢
    by_cases hxy : x.toNat < y.toNat
    · by_cases hyz : y.toNat < z.toNat
      · simp [show x.toNat < z.toNat by omega]
      · by_cases hzy : z.toNat < y.toNat
        · simp [hyz, hzy] at h2
        · simp [show x.toNat < z.toNat by omega]
    · by_cases hyx : y.toNat < x.toNat
      · simp [hxy, hyx] at h1
      · by_cases hyz : y.toNat < z.toNat
        · simp [show x.toNat < z.toNat by omega]
        · by_cases hzy : z.toNat < y.toNat
          · simp [hyz, hzy] at h2
          · have hxz : ¬x.toNat < z.toNat := by omega
            have hzx : ¬z.toNat < x.toNat := by omega
            simp only [hxy, hyx, if_false] at h1
            simp only [hyz, hzy, if_false] at h2
            simp only [hxz, hzx, if_false]
            exact lexLe_trans xs ys zs h1 h2

theorem mem_sortStrings {a : String} {l : List String} :
    a ∈ sortStrings l ↔ a ∈ l :=
  (List.perm_insertionSort _ l).mem_iff

theorem sorted_sortStrings (l : List String) :
    (sortStrings l).Sorted fun a b => strLe a b = true := by
  haveI : IsTotal String fun a b => strLe a b = true :=
    ⟨fun a b => lexLe_total a.data b.data⟩
  haveI : IsTrans String fun a b => strLe a b = true :=
    ⟨fun a b c => lexLe_trans a.data b.data c.data⟩
  exact List.sorted_insertionSort _ l

theorem stripDotsList_eq_dropWhile (l : List Char) :
    stripDotsList l = l.dropWhile fun c => c == '.' := by
  induction l with
  | nil => rfl
  | cons c rest ih =>
    by_cases h : c == '.' <;> simp [stripDotsList, List.dropWhile_cons, h, ih]

theorem append_mbox_ne_empty (s : String) : s ++ ".mbox" ≠ "" := by
  intro h
  have hlen := congrArg String.length h
  simp [String.length_append] at hlen
  exact absurd hlen.2 (by decide)

theorem contains_iff_mem {l : List String} {a : String} :
    l.contains a = true ↔ a ∈ l := by
  simp [List.contains, List.elem_iff]

mutual
theorem mem_walkSegs (t : Dir) (pre : List String) (x : List String × Dir) :
    x ∈ walkSegs pre t ↔ ∃ s e, x = (pre ++ s, e) ∧ Reaches t s e := by
  cases t with
  | node fs sub =>
    simp only [walkSegs, List.mem_cons]
    constructor
    · rintro (rfl | h)
      · exact ⟨[], .node fs sub, by simp, Reaches.refl _⟩
      · rcases (mem_walkChildren sub pre x).mp h with ⟨n, c, s, e, hm, rfl, hr⟩
        exact ⟨n :: s, e, rfl, Reaches.step hm hr⟩
    · rintro ⟨s, e, rfl, hr⟩
      cases hr with
      | refl => left; simp
      | step hm hr2 =>
        right
        exact (mem_walkChildren sub pre _).mpr ⟨_, _, _, _, hm, by simp, hr2⟩
theorem mem_walkChildren (l : DirList) (pre : List String) (x : List String × Dir) :
    x ∈ walkChildren pre l ↔
      ∃ n c s e, DMem n c l ∧ x = (pre ++ n :: s, e) ∧ Reaches c s e := by
  cases l with
  | nil =>
    simp only [walkChildren, List.not_mem_nil, false_iff]
    rintro ⟨n, c, s, e, hm, _, _⟩
    cases hm
  | cons n c rest =>
    simp only [walkChildren, List.mem_append]
    constructor
    · rintro (h | h)
      · rcases (mem_walkSegs c (pre ++ [n]) x).mp h with ⟨s, e, rfl, hr⟩
        exact ⟨n, c, s, e, DMem.head n c rest, by simp, hr⟩
      · rcases (mem_walkChildren rest pre x).mp h with ⟨m, d, s, e, hm, rfl, hr⟩
        exact ⟨m, d, s, e, DMem.tail hm, rfl, hr⟩
    · rintro ⟨m, d, s, e, hm, rfl, hr⟩
      cases hm with
      | head =>
        left
        exact (mem_walkSegs _ _ _).mpr ⟨s, e, by simp, hr⟩
      | tail hm2 =>
        right
        exact (mem_walkChildren rest pre _).mpr ⟨m, d, s, e, hm2, rfl, hr⟩
end

theorem mem_selectKeys (entries mdKeys : List String) (k : String) :
    k ∈ selectKeys entries mdKeys ↔
      k ∈ mdKeys ∧ (k ∈ entries ∨ ∀ j ∈ mdKeys, j ∉ entries) := by
  unfold selectKeys
  rw [mem_sortStrings]
  by_cases he : ((mdKeys.filter fun k2 => entries.contains k2).isEmpty) = true
  · have hnil : mdKeys.filter (fun k2 => entries.contains k2) = [] :=
      List.isEmpty_iff.mp he
    have hall : ∀ j ∈ mdKeys, j ∉ entries := by
      intro j hj hcontra
      have hc : entries.contains j = true := contains_iff_mem.mpr hcontra
      have hmem : j ∈ mdKeys.filter fun k2 => entries.contains k2 :=
        List.mem_filter.mpr ⟨hj, hc⟩
      rw [hnil] at hmem
      cases hmem
    simp only [he, if_true]
    exact ⟨fun h => ⟨h, Or.inr hall⟩, fun h => h.1⟩
  · have hne : mdKeys.filter (fun k2 => entries.contains k2) ≠ [] := by
      intro h
      rw [h] at he
      exact he rfl
    obtain ⟨j, hj⟩ := List.exists_mem_of_ne_nil _ hne
    have hjm := List.mem_filter.mp hj
    have hnall : ¬∀ i ∈ mdKeys, i ∉ entries := fun hall =>
      hall j hjm.1 (contains_iff_mem.mp hjm.2)
    simp only [he, Bool.false_eq_true, if_false]
    rw [List.mem_filter]
    constructor
    · rintro ⟨h1, h2⟩
      exact ⟨h1, Or.inl (contains_iff_mem.mp h2)⟩
    · rintro ⟨h1, h2 | h2⟩
      · exact ⟨h1, contains_iff_mem.mpr h2⟩
      · exact absurd h2 hnall

theorem counts_step_count (c : Counts) (o : Outcome) :
    (c.step o).count = c.count + 1 := by
  obtain ⟨cc, co, cr, cs⟩ := c
  cases o <;> rfl

theorem counts_step_sum (c : Counts) (o : Outcome) :
    (c.step o).ok + (c.step o).raw + (c.step o).skip =
      c.ok + c.raw + c.skip + 1 := by
  obtain ⟨cc, co, cr, cs⟩ := c
  cases o <;> simp [Counts.step] <;> omega

theorem runKeys_noIntr (ops : String → MsgOps) (fOk : Nat → Bool) :
    ∀ (keys : List String) (c : Counts),
    (runKeys ops (fun _ => false) fOk keys c).2.2 = false ∧
    (runKeys ops (fun _ => false) fOk keys c).2.1.count = c.count + keys.length ∧
    (runKeys ops (fun _ => false) fOk keys c).2.1.ok +
        (runKeys ops (fun _ => false) fOk keys c).2.1.raw +
        (runKeys ops (fun _ => false) fOk keys c).2.1.skip =
      c.ok + c.raw + c.skip + keys.length := by
  intro keys
  induction keys with
  | nil => intro c; simp [runKeys]
  | cons k ks ih =>
    intro c
    have hc := counts_step_count c (add_with_fallback (ops k) k).1
    have hs := counts_step_sum c (add_with_fallback (ops k) k).1
    have ihc := ih (c.step (add_with_fallback (ops k) k).1)
    simp only [runKeys, List.length_cons, Bool.false_eq_true, if_false]
    exact ⟨ihc.1, by omega, by omega⟩

theorem runKeys_flushCount (ops : String → MsgOps) (fOk : Nat → Bool) :
    ∀ (keys : List String) (c : Counts),
    (runKeys ops (fun _ => false) fOk keys c).1.countP isFlush =
      (c.count + keys.length) / 200 - c.count / 200 := by
  intro keys
  induction keys with
  | nil => intro c; simp [runKeys]
  | cons k ks ih =>
    intro c
    have hc := counts_step_count c (add_with_fallback (ops k) k).1
    have ihc := ih (c.step (add_with_fallback (ops k) k).1)
    rw [hc] at ihc
    have heq : c.count + (ks.length + 1) = c.count + 1 + ks.length := by omega
    have hle : (c.count + 1) / 200 ≤ (c.count + 1 + ks.length) / 200 :=
      Nat.div_le_div_right (by omega)
    simp only [runKeys, Bool.false_eq_true, if_false, List.countP_append,
      List.countP_cons, List.length_cons, hc]
    by_cases hd : (200 : Nat) ∣ c.count + 1
    · have hm : (c.count + 1) % 200 = 0 := Nat.dvd_iff_mod_eq_zero.mp hd
      have hdiv : (c.count + 1) / 200 = c.count / 200 + 1 := by
        rw [Nat.succ_div]
        simp [hd]
      simp [hm, isFlush, List.countP_cons, List.countP_nil, ihc]
      rw [heq]
      omega
    · have hm : ((c.count + 1) % 200 == 0) = false := by
        have hne : (c.count + 1) % 200 ≠ 0 := fun h =>
          hd (Nat.dvd_iff_mod_eq_zero.mpr h)
        simp [hne]
      have hdiv : (c.count + 1) / 200 = c.count / 200 := by
        rw [Nat.succ_div]
        simp [hd]
      simp [hm, isFlush, List.countP_nil, List.countP_cons, ihc]
      rw [heq]
      omega

theorem runKeys_indep (ops : String → MsgOps) (intr : Nat → Bool) (f g : Nat → Bool) :
    ∀ (keys : List String) (c : Counts),
    (runKeys ops intr f keys c).2 = (runKeys ops intr g keys c).2 ∧
    (runKeys ops intr f keys c).1.filter isAppend =
      (runKeys ops intr g keys c).1.filter isAppend := by
  intro keys
  induction keys with
  | nil => intro c; simp [runKeys]
  | cons k ks ih =>
    intro c
    have ihc := ih (c.step (add_with_fallback (ops k) k).1)
    by_cases hi : intr (c.step (add_with_fallback (ops k) k).1).count = true
    · simp [runKeys, hi]
    · by_cases hm :
          ((c.step (add_with_fallback (ops k) k).1).count % 200 == 0) = true
      · simp [runKeys, hi, hm, isAppend, isFlush, List.filter_append,
          List.filter_cons, ihc.1, ihc.2]
      · simp [runKeys, hi, hm, isAppend, isFlush, List.filter_append,
          List.filter_cons, ihc.1, ihc.2]

theorem runFolder_last (ops : String → MsgOps) (intr : Nat → Bool)
    (fOk : Nat → Bool) (ffOk cOk : Bool) (keys : List String) :
    (runFolder ops intr fOk ffOk cOk keys).1.getLast? = some (.closeTry cOk) ∧
    (runFolder ops intr fOk ffOk cOk keys).1.dropLast.getLast? =
      some (.flushTry ffOk) := by
  have hsplit :
      (runFolder ops intr fOk ffOk cOk keys).1 =
        ((runKeys ops intr fOk keys Counts.zero).1 ++ [.flushTry ffOk]) ++
          [.closeTry cOk] := by
    simp [runFolder]
  rw [hsplit]
  exact ⟨List.getLast?_concat _, by
    rw [List.dropLast_concat]
    exact List.getLast?_concat _⟩

theorem convertFolders_cons_noabort (cfg : RunCfg) (segs : List String) (d : Dir)
    (rest : List (List String × Dir)) (total : Nat)
    (h : (runFolder (cfg.msgOps segs) (cfg.intr segs) (cfg.fOk segs)
      (cfg.ffOk segs) (cfg.cOk segs) (folderKeys cfg segs d)).2.2 = false) :
    convertFolders cfg ((segs, d) :: rest) total =
      ((convertFolders cfg rest (total +
          (runFolder (cfg.msgOps segs) (cfg.intr segs) (cfg.fOk segs)
            (cfg.ffOk segs) (cfg.cOk segs) (folderKeys cfg segs d)).2.1.count)).1,
       (⟨segs, mbox_filename (joinRel segs), folderKeys cfg segs d,
          (runFolder (cfg.msgOps segs) (cfg.intr segs) (cfg.fOk segs)
            (cfg.ffOk segs) (cfg.cOk segs) (folderKeys cfg segs d)).1,
          (runFolder (cfg.msgOps segs) (cfg.intr segs) (cfg.fOk segs)
            (cfg.ffOk segs) (cfg.cOk segs) (folderKeys cfg segs d)).2.1⟩ :
          FolderResult) ::
         (convertFolders cfg rest (total +
            (runFolder (cfg.msgOps segs) (cfg.intr segs) (cfg.fOk segs)
              (cfg.ffOk segs) (cfg.cOk segs) (folderKeys cfg segs d)).2.1.count)).2.1,
       (convertFolders cfg rest (total +
          (runFolder (cfg.msgOps segs) (cfg.intr segs) (cfg.fOk segs)
            (cfg.ffOk segs) (cfg.cOk segs) (folderKeys cfg segs d)).2.1.count)).2.2) := by
  simp [convertFolders, h]

theorem convertFolders_cons_abort (cfg : RunCfg) (segs : List String) (d : Dir)
    (rest : List (List String × Dir)) (total : Nat)
    (h : (runFolder (cfg.msgOps segs) (cfg.intr segs) (cfg.fOk segs)
      (cfg.ffOk segs) (cfg.cOk segs) (folderKeys cfg segs d)).2.2 = true) :
    convertFolders cfg ((segs, d) :: rest) total =
      (total + (runFolder (cfg.msgOps segs) (cfg.intr segs) (cfg.fOk segs)
          (cfg.ffOk segs) (cfg.cOk segs) (folderKeys cfg segs d)).2.1.count,
       [(⟨segs, mbox_filename (joinRel segs), folderKeys cfg segs d,
          (runFolder (cfg.msgOps segs) (cfg.intr segs) (cfg.fOk segs)
            (cfg.ffOk segs) (cfg.cOk segs) (folderKeys cfg segs d)).1,
          (runFolder (cfg.msgOps segs) (cfg.intr segs) (cfg.fOk segs)
            (cfg.ffOk segs) (cfg.cOk segs) (folderKeys cfg segs d)).2.1⟩ :
          FolderResult)],
       true) := by
  simp [convertFolders, h]

theorem withFlush_msgOps (cfg : RunCfg) (f : List String → Nat → Bool)
    (g h : List String → Bool) : (withFlush cfg f g h).msgOps = cfg.msgOps := rfl

theorem withFlush_intr (cfg : RunCfg) (f : List String → Nat → Bool)
    (g h : List String → Bool) : (withFlush cfg f g h).intr = cfg.intr := rfl

theorem withFlush_fOk (cfg : RunCfg) (f : List String → Nat → Bool)
    (g h : List String → Bool) : (withFlush cfg f g h).fOk = f := rfl

theorem withFlush_ffOk (cfg : RunCfg) (f : List String → Nat → Bool)
    (g h : List String → Bool) : (withFlush cfg f g h).ffOk = g := rfl

theorem withFlush_cOk (cfg : RunCfg) (f : List String → Nat → Bool)
    (g h : List String → Bool) : (withFlush cfg f g h).cOk = h := rfl

theorem folderKeys_withFlush (cfg : RunCfg) (f : List String → Nat → Bool)
    (g h : List String → Bool) (segs : List String) (d : Dir) :
    folderKeys (withFlush cfg f g h) segs d = folderKeys cfg segs d := rfl

theorem runFolder_fst (ops : String → MsgOps) (intr : Nat → Bool)
    (fOk : Nat → Bool) (ffOk cOk : Bool) (keys : List String) :
    (runFolder ops intr fOk ffOk cOk keys).1 =
      (runKeys ops intr fOk keys Counts.zero).1 ++
        [.flushTry ffOk, .closeTry cOk] := rfl

theorem runFolder_snd (ops : String → MsgOps) (intr : Nat → Bool)
    (fOk : Nat → Bool) (ffOk cOk : Bool) (keys : List String) :
    (runFolder ops intr fOk ffOk cOk keys).2 =
      (runKeys ops intr fOk keys Counts.zero).2 := rfl

theorem convertFolders_indep (cfg : RunCfg) (f1 f2 : List String → Nat → Bool)
    (g1 h1 g2 h2 : List String → Bool) :
    ∀ (folders : List (List String × Dir)) (total : Nat),
    (convertFolders (withFlush cfg f1 g1 h1) folders total).1 =
      (convertFolders (withFlush cfg f2 g2 h2) folders total).1 ∧
    (convertFolders (withFlush cfg f1 g1 h1) folders total).2.2 =
      (convertFolders (withFlush cfg f2 g2 h2) folders total).2.2 ∧
    ((convertFolders (withFlush cfg f1 g1 h1) folders total).2.1.map frKey) =
      ((convertFolders (withFlush cfg f2 g2 h2) folders total).2.1.map frKey) := by
  intro folders
  induction folders with
  | nil => intro total; simp [convertFolders]
  | cons p rest ih =>
    obtain ⟨segs, d⟩ := p
    intro total
    have hind := runKeys_indep (cfg.msgOps segs) (cfg.intr segs) (f1 segs) (f2 segs)
      (folderKeys cfg segs d) Counts.zero
    have hsnd := hind.1
    have hflag : (runKeys (cfg.msgOps segs) (cfg.intr segs) (f2 segs)
        (folderKeys cfg segs d) Counts.zero).2.2 =
      (runKeys (cfg.msgOps segs) (cfg.intr segs) (f1 segs)
        (folderKeys cfg segs d) Counts.zero).2.2 := (congrArg Prod.snd hsnd).symm
    have hcnts : (runKeys (cfg.msgOps segs) (cfg.intr segs) (f2 segs)
        (folderKeys cfg segs d) Counts.zero).2.1 =
      (runKeys (cfg.msgOps segs) (cfg.intr segs) (f1 segs)
        (folderKeys cfg segs d) Counts.zero).2.1 := (congrArg Prod.fst hsnd).symm
    by_cases habt : (runKeys (cfg.msgOps segs) (cfg.intr segs) (f1 segs)
        (folderKeys cfg segs d) Counts.zero).2.2 = true
    · have h1a : (runFolder ((withFlush cfg f1 g1 h1).msgOps segs)
          ((withFlush cfg f1 g1 h1).intr segs) ((withFlush cfg f1 g1 h1).fOk segs)
          ((withFlush cfg f1 g1 h1).ffOk segs) ((withFlush cfg f1 g1 h1).cOk segs)
          (folderKeys (withFlush cfg f1 g1 h1) segs d)).2.2 = true := habt
      have h2a : (runFolder ((withFlush cfg f2 g2 h2).msgOps segs)
          ((withFlush cfg f2 g2 h2).intr segs) ((withFlush cfg f2 g2 h2).fOk segs)
          ((withFlush cfg f2 g2 h2).ffOk segs) ((withFlush cfg f2 g2 h2).cOk segs)
          (folderKeys (withFlush cfg f2 g2 h2) segs d)).2.2 = true :=
        hflag.trans habt
      rw [convertFolders_cons_abort (withFlush cfg f1 g1 h1) segs d rest total h1a,
          convertFolders_cons_abort (withFlush cfg f2 g2 h2) segs d rest total h2a]
      simp only [withFlush_msgOps, withFlush_intr, withFlush_fOk, withFlush_ffOk,
        withFlush_cOk, folderKeys_withFlush, runFolder_fst, runFolder_snd]
      refine ⟨by rw [hcnts], trivial, ?_⟩
      simp only [List.map_cons, List.map_nil, frKey, List.cons.injEq, and_true]
      rw [hcnts]
      simp [List.filter_append, isAppend, hind.2]
    · have hf1 : (runKeys (cfg.msgOps segs) (cfg.intr segs) (f1 segs)
          (folderKeys cfg segs d) Counts.zero).2.2 = false := by
        simpa using habt
      have hf2 : (runKeys (cfg.msgOps segs) (cfg.intr segs) (f2 segs)
          (folderKeys cfg segs d) Counts.zero).2.2 = false := hflag.trans hf1
      have h1a : (runFolder ((withFlush cfg f1 g1 h1).msgOps segs)
          ((withFlush cfg f1 g1 h1).intr segs) ((withFlush cfg f1 g1 h1).fOk segs)
          ((withFlush cfg f1 g1 h1).ffOk segs) ((withFlush cfg f1 g1 h1).cOk segs)
          (folderKeys (withFlush cfg f1 g1 h1) segs d)).2.2 = false := hf1
      have h2a : (runFolder ((withFlush cfg f2 g2 h2).msgOps segs)
          ((withFlush cfg f2 g2 h2).intr segs) ((withFlush cfg f2 g2 h2).fOk segs)
          ((withFlush cfg f2 g2 h2).ffOk segs) ((withFlush cfg f2 g2 h2).cOk segs)
          (folderKeys (withFlush cfg f2 g2 h2) segs d)).2.2 = false := hf2
      rw [convertFolders_cons_noabort (withFlush cfg f1 g1 h1) segs d rest total h1a,
          convertFolders_cons_noabort (withFlush cfg f2 g2 h2) segs d rest total h2a]
      simp only [withFlush_msgOps, withFlush_intr, withFlush_fOk, withFlush_ffOk,
        withFlush_cOk, folderKeys_withFlush, runFolder_fst, runFolder_snd]
      rw [hcnts]
      obtain ⟨ihA, ihB, ihC⟩ := ih (total +
        (runKeys (cfg.msgOps segs) (cfg.intr segs) (f1 segs)
          (folderKeys cfg segs d) Counts.zero).2.1.count)
      refine ⟨ihA, ihB, ?_⟩
      simp only [List.map_cons, ihC, List.cons.injEq, and_true, frKey]
      simp [List.filter_append, isAppend, hind.2]

theorem convertFolders_noIntr (cfg : RunCfg) :
    ∀ (folders : List (List String × Dir)) (total : Nat),
    (convertFolders (noIntr cfg) folders total).2.2 = false ∧
    (convertFolders (noIntr cfg) folders total).1 =
      total + (folders.map fun p => (folderKeys (noIntr cfg) p.1 p.2).length).sum ∧
    ((convertFolders (noIntr cfg) folders total).2.1.map fun fr => fr.segs) =
      folders.map Prod.fst ∧
    ((convertFolders (noIntr cfg) folders total).2.1.all fun fr =>
      (fr.counts.count == fr.keys.length) &&
      (fr.counts.count == fr.counts.ok + fr.counts.raw + fr.counts.skip)) = true := by
  intro folders
  induction folders with
  | nil => intro total; simp [convertFolders]
  | cons p rest ih =>
    obtain ⟨segs, d⟩ := p
    intro total
    have hk := runKeys_noIntr ((noIntr cfg).msgOps segs) ((noIntr cfg).fOk segs)
      (folderKeys (noIntr cfg) segs d) Counts.zero
    have hab : (runFolder ((noIntr cfg).msgOps segs) ((noIntr cfg).intr segs)
        ((noIntr cfg).fOk segs) ((noIntr cfg).ffOk segs) ((noIntr cfg).cOk segs)
        (folderKeys (noIntr cfg) segs d)).2.2 = false := hk.1
    rw [convertFolders_cons_noabort (noIntr cfg) segs d rest total hab]
    set R := runFolder ((noIntr cfg).msgOps segs) ((noIntr cfg).intr segs)
      ((noIntr cfg).fOk segs) ((noIntr cfg).ffOk segs) ((noIntr cfg).cOk segs)
      (folderKeys (noIntr cfg) segs d) with hR
    obtain ⟨ih1, ih2, ih3, ih4⟩ := ih (total + R.2.1.count)
    have hcnt : R.2.1.count =
        Counts.zero.count + (folderKeys (noIntr cfg) segs d).length := hk.2.1
    have hsum : R.2.1.ok + R.2.1.raw + R.2.1.skip =
        Counts.zero.ok + Counts.zero.raw + Counts.zero.skip +
          (folderKeys (noIntr cfg) segs d).length := hk.2.2
    have hz1 : Counts.zero.count = 0 := rfl
    have hz2 : Counts.zero.ok = 0 := rfl
    have hz3 : Counts.zero.raw = 0 := rfl
    have hz4 : Counts.zero.skip = 0 := rfl
    refine ⟨ih1, ?_, ?_, ?_⟩
    · show (convertFolders (noIntr cfg) rest (total + R.2.1.count)).1 = _
      rw [ih2]
      simp only [List.map_cons, List.sum_cons]
      omega
    · show (_ :: (convertFolders (noIntr cfg) rest (total + R.2.1.count)).2.1).map
        (fun fr => fr.segs) = _
      simp only [List.map_cons, ih3]
    · show (_ :: (convertFolders (noIntr cfg) rest (total + R.2.1.count)).2.1).all
        _ = true
      simp only [List.all_cons, Bool.and_eq_true, beq_iff_eq]
      exact ⟨⟨by omega, by omega⟩, ih4⟩

theorem convert_noIntr (root : String) (cfg : RunCfg) (t : Dir) :
    (convert_maildir root (noIntr cfg) t).2.2 = false ∧
    (convert_maildir root (noIntr cfg) t).1 =
      ((findMaildirPairs root t).map fun p =>
        (folderKeys (noIntr cfg) p.1 p.2).length).sum ∧
    ((convert_maildir root (noIntr cfg) t).2.1.all fun fr =>
      (fr.counts.count == fr.keys.length) &&
      (fr.counts.count == fr.counts.ok + fr.counts.raw + fr.counts.skip)) = true := by
  unfold convert_maildir
  by_cases he : (findMaildirPairs root t).isEmpty = true
  · have hnil : findMaildirPairs root t = [] := List.isEmpty_iff.mp he
    simp [he, hnil]
  · have h := convertFolders_noIntr cfg (findMaildirPairs root t) 0
    simp only [he, if_false]
    exact ⟨h.1, by simpa using h.2.1, h.2.2.2⟩

theorem convert_indep (root : String) (cfg : RunCfg)
    (f1 f2 : List String → Nat → Bool) (g1 h1 g2 h2 : List String → Bool)
    (t : Dir) :
    (convert_maildir root (withFlush cfg f1 g1 h1) t).1 =
      (convert_maildir root (withFlush cfg f2 g2 h2) t).1 ∧
    (convert_maildir root (withFlush cfg f1 g1 h1) t).2.2 =
      (convert_maildir root (withFlush cfg f2 g2 h2) t).2.2 ∧
    ((convert_maildir root (withFlush cfg f1 g1 h1) t).2.1.map frKey) =
      ((convert_maildir root (withFlush cfg f2 g2 h2) t).2.1.map frKey) := by
  unfold convert_maildir
  by_cases he : (findMaildirPairs root t).isEmpty = true
  · simp [he]
  · simp only [he, if_false]
    exact convertFolders_indep cfg f1 f2 g1 h1 g2 h2 (findMaildirPairs root t) 0

theorem mbox_filename_shape (rel : String) :
    ∃ s, mbox_filename rel = s ++ ".mbox" := by
  unfold mbox_filename
  by_cases h : (rel == ".") = true
  · exact ⟨"Inbox", by simp [h]⟩
  · refine ⟨if String.mk (sepToUnderscore (String.mk (stripDotsList rel.data)).data) == ""
      then "Inbox"
      else String.mk (sepToUnderscore (String.mk (stripDotsList rel.data)).data), ?_⟩
    simp [h]

theorem main_run_none (src dst : String) (cfg : RunCfg) :
    main_run src dst none cfg = 1 := by
  unfold main_run
  by_cases h : (src == "") = true <;> simp [h]

theorem main_run_some (src dst : String) (t : Dir) (cfg : RunCfg)
    (hab : (convert_maildir src cfg t).2.2 = false) :
    main_run src dst (some t) cfg =
      if src = "" then 1
      else if dst = "" then 1
      else if (convert_maildir src cfg t).1 = 0 then 2 else 0 := by
  unfold main_run
  by_cases hs : src = ""
  · simp [hs]
  · by_cases hd : dst = ""
    · simp [hs, hd]
    · by_cases ht : (convert_maildir src cfg t).1 = 0 <;> simp [hs, hd, hab, ht]

/-! Claim theorems. -/

/-- Claim C2, amended: the destination name is computed by repeatedly
removing leading DOT CHARACTERS from the front of the relative path (so
only dots at the very start of the string are stripped; a dot beginning
a later segment survives), then replacing every path separator with an
underscore, falling back to `Inbox` on an empty result, and appending
`.mbox`.  `.Sent` maps to `Sent.mbox`; `.a/.b` maps to `a_.b.mbox`. -/
theorem C2_name_mapper : ∀ rel : String,
    mbox_filename rel = mboxNameCharStripSpec rel ∧
    mbox_filename ".Sent" = "Sent.mbox" ∧
    mbox_filename (joinRel [".Sent"]) = "Sent.mbox" ∧
    mbox_filename ".a/.b" = "a_.b.mbox" := by
  intro rel
  refine ⟨?_, by decide, by decide, by decide⟩
  unfold mbox_filename mboxNameCharStripSpec
  by_cases h : (rel == ".") = true
  · simp [h]
  · simp [h, sepToUnderscore, stripDotsList_eq_dropWhile]

/-- Witness for C2: the amended Name Mapper equation evaluated at a
concrete relative path. -/
theorem C2_name_mapper_witness :
    mbox_filename "Top/.Sub" = mboxNameCharStripSpec "Top/.Sub" :=
  (C2_name_mapper "Top/.Sub").1

/-- Counterexample to claim C2 as stated: on the relative path `.a/.b`
the code keeps the second dot-segment (producing `a_.b.mbox`), while
stripping leading dot-SEGMENTS as the claim words it would empty the
path and fall back to `Inbox.mbox`. -/
theorem C2_segment_strip_counterexample :
    mbox_filename ".a/.b" = "a_.b.mbox" ∧
    mboxNameSegStripClaim ".a/.b" = "Inbox.mbox" ∧
    mbox_filename ".a/.b" ≠ mboxNameSegStripClaim ".a/.b" := by decide

/-- Claim C3: the three-tier fallback of `add_with_fallback`, first
success wins — parsed copy gives OK; raw copy gives RAW; otherwise the
placeholder (whose content is the fixed sender line
`From: conversion-error` and subject line
`Subject: Recovered placeholder`) also gives RAW; SKIP exactly when all
three appends fail; the (total) function always returns one of the
three outcomes, and a record is appended unless the outcome is SKIP. -/
theorem C3_three_tier : ∀ (ops : MsgOps) (key : String),
    ((add_with_fallback ops key).1 = .OK ↔ ops.parseAdd = true) ∧
    ((add_with_fallback ops key).2 = some (.parsed key) ↔ ops.parseAdd = true) ∧
    ((add_with_fallback ops key).2 = some (.rawBytes key) ↔
      (ops.parseAdd = false ∧ (ops.rawRead && ops.rawAdd) = true)) ∧
    ((add_with_fallback ops key).2 = some (.placeholder placeholderContent) ↔
      (ops.parseAdd = false ∧ (ops.rawRead && ops.rawAdd) = false ∧
        ops.phAdd = true)) ∧
    ((add_with_fallback ops key).1 = .RAW ↔
      (ops.parseAdd = false ∧
        ((ops.rawRead && ops.rawAdd) = true ∨ ops.phAdd = true))) ∧
    ((add_with_fallback ops key).1 = .SKIP ↔
      (ops.parseAdd = false ∧ (ops.rawRead && ops.rawAdd) = false ∧
        ops.phAdd = false)) ∧
    ((add_with_fallback ops key).2 = none ↔ (add_with_fallback ops key).1 = .SKIP) ∧
    ((add_with_fallback ops key).1 = .OK ∨ (add_with_fallback ops key).1 = .RAW ∨
      (add_with_fallback ops key).1 = .SKIP) ∧
    placeholderContent =
      "From: conversion-error\n" ++ "Subject: Recovered placeholder\n" ++ "\n" ++
        "<Failed to read original message in Maildir.>" := by
  intro ops key
  obtain ⟨p, rr, ra, ph⟩ := ops
  have hs : placeholderContent =
      "From: conversion-error\n" ++ "Subject: Recovered placeholder\n" ++ "\n" ++
        "<Failed to read original message in Maildir.>" := by decide
  cases p <;> cases rr <;> cases ra <;> cases ph <;>
    simp [add_with_fallback, hs]

/-- Witness for C3: the raw tier at a concrete oracle and key. -/
theorem C3_three_tier_witness :
    (add_with_fallback ⟨false, true, true, true⟩ "k").2 = some (.rawBytes "k") ↔
      ((⟨false, true, true, true⟩ : MsgOps).parseAdd = false ∧
        ((⟨false, true, true, true⟩ : MsgOps).rawRead &&
          (⟨false, true, true, true⟩ : MsgOps).rawAdd) = true) :=
  (C3_three_tier ⟨false, true, true, true⟩ "k").2.2.1

/-- Claim C4, amended: on a missing or non-directory root,
`find_maildirs` raises nothing — `os.walk` yields no entries (its
default `onerror=None` swallows the scandir failure) and the function
returns the empty list; the missing-source condition is instead caught
in `main`, which exits with status 1 before `find_maildirs` runs. -/
theorem C4_locator_returns : ∀ (root src dst : String) (cfg : RunCfg),
    find_maildirs root none = [] ∧
    find_maildirs_claimSpec root none = Except.error "NotFoundError" ∧
    main_run src dst none cfg = 1 := by
  intro root src dst cfg
  refine ⟨rfl, rfl, ?_⟩
  unfold main_run
  by_cases h : (src == "") = true
  · simp [h]
  · simp [h]

/-- Witness for C4: a run with a missing source tree exits 1. -/
theorem C4_locator_returns_witness : main_run "/s" "/d" none cfg0 = 1 :=
  (C4_locator_returns "/x" "/s" "/d" cfg0).2.2

/-- Counterexample to claim C4 as stated: at the concrete missing root
`/missing` the Folder Locator returns a result (the empty list) rather
than failing with a `NotFoundError` as the claim demands. -/
theorem C4_notfound_counterexample :
    find_maildirs "/missing" none = ([] : List String) ∧
    (Except.ok (find_maildirs "/missing" none) : Except String (List String)) ≠
      find_maildirs_claimSpec "/missing" none :=
  ⟨rfl, fun h => by simp [find_maildirs_claimSpec, find_maildirs] at h⟩

/-- Claim C5: the processed keys of a folder are the mailbox-layer keys
matching a filename listed once under `cur` and `new`; if that
intersection is empty the whole mailbox-layer key set is used; the
result is sorted, and the selection is deterministic. -/
theorem C5_key_selection : ∀ (cfg : RunCfg) (segs : List String) (d : Dir),
    (∀ k, k ∈ folderKeys cfg segs d ↔
      k ∈ cfg.mdKeys segs ∧
        (k ∈ folderEntries d ∨ ∀ j ∈ cfg.mdKeys segs, j ∉ folderEntries d)) ∧
    (folderKeys cfg segs d).Sorted (fun a b => strLe a b = true) ∧
    folderKeys cfg segs d = folderKeys cfg segs d := by
  intro cfg segs d
  exact ⟨fun k => mem_selectKeys (folderEntries d) (cfg.mdKeys segs) k,
    sorted_sortStrings _, rfl⟩

/-- Witness for C5: the key-membership characterization at a concrete
folder and key. -/
theorem C5_key_selection_witness :
    "m1" ∈ folderKeys cfg0 [] t0 ↔
      "m1" ∈ cfg0.mdKeys [] ∧
        ("m1" ∈ folderEntries t0 ∨ ∀ j ∈ cfg0.mdKeys [], j ∉ folderEntries t0) :=
  (C5_key_selection cfg0 [] t0).1 "m1"

/-- Claim C6: on an existing root, `find_maildirs` returns exactly the
paths of the directories reachable by recursive descent from the root
(the root itself included) that have `cur`, `new` and `tmp`
subdirectories, sorted lexicographically, and a second run on the
unchanged tree gives the same list. -/
theorem C6_folder_locator : ∀ (root : String) (t : Dir),
    (∀ x, x ∈ find_maildirs root (some t) ↔
      ∃ segs d, Reaches t segs d ∧ is_maildir d = true ∧ x = pathStr root segs) ∧
    (find_maildirs root (some t)).Sorted (fun a b => strLe a b = true) ∧
    find_maildirs root (some t) = find_maildirs root (some t) := by
  intro root t
  refine ⟨fun x => ?_, sorted_sortStrings _, rfl⟩
  show x ∈ sortStrings (((walkSegs [] t).filter fun p => is_maildir p.2).map
      fun p => pathStr root p.1) ↔ _
  rw [mem_sortStrings, List.mem_map]
  constructor
  · rintro ⟨⟨segs, d⟩, hmem, rfl⟩
    rw [List.mem_filter] at hmem
    rcases (mem_walkSegs t [] (segs, d)).mp hmem.1 with ⟨s, e, heq, hr⟩
    have h2 : segs = s ∧ d = e := by simpa using heq
    obtain ⟨rfl, rfl⟩ := h2
    exact ⟨segs, d, hr, hmem.2, rfl⟩
  · rintro ⟨segs, d, hr, hm, rfl⟩
    exact ⟨(segs, d),
      List.mem_filter.mpr
        ⟨(mem_walkSegs t [] (segs, d)).mpr ⟨segs, d, by simp, hr⟩, hm⟩,
      rfl⟩

/-- Witness for C6: the membership characterization at a concrete root
and path. -/
theorem C6_folder_locator_witness :
    "/s" ∈ find_maildirs "/s" (some t0) ↔
      ∃ segs d, Reaches t0 segs d ∧ is_maildir d = true ∧ "/s" = pathStr "/s" segs :=
  (C6_folder_locator "/s" t0).1 "/s"

/-- Claim C9: the Name Mapper is deterministic and total — it always
returns a non-empty string ending in `.mbox`, equal inputs give equal
outputs, and the source root itself (relative path `.`) maps to
`Inbox.mbox`. -/
theorem C9_name_mapper_total : ∀ rel : String,
    mbox_filename rel ≠ "" ∧
    (∃ s, mbox_filename rel = s ++ ".mbox") ∧
    mbox_filename rel = mbox_filename rel ∧
    mbox_filename "." = "Inbox.mbox" ∧
    mbox_filename (joinRel []) = "Inbox.mbox" := by
  intro rel
  obtain ⟨s, hs⟩ := mbox_filename_shape rel
  exact ⟨by rw [hs]; exact append_mbox_ne_empty s, ⟨s, hs⟩, rfl, by decide, by decide⟩

/-- Witness for C9: non-emptiness at a concrete relative path. -/
theorem C9_name_mapper_total_witness : mbox_filename "Sub/Dir" ≠ "" :=
  (C9_name_mapper_total "Sub/Dir").1

/-- Claim C10: the Name Mapper is not injective — the distinct sibling
folders `.Sent` and `Sent` (and likewise `a/b` and `a_b`) map to the
same archive filename, so both would be appended into the same
destination file. -/
theorem C10_name_collision :
    joinRel [".Sent"] ≠ joinRel ["Sent"] ∧
    pathStr "/root" [".Sent"] ≠ pathStr "/root" ["Sent"] ∧
    mbox_filename (joinRel [".Sent"]) = mbox_filename (joinRel ["Sent"]) ∧
    joinRel ["a", "b"] ≠ joinRel ["a_b"] ∧
    mbox_filename (joinRel ["a", "b"]) = mbox_filename (joinRel ["a_b"]) := by
  decide

/-- Claim C1, amended: the exit status is 1 exactly when the source
path is empty, the source is not an existing directory, or the
destination path is empty; otherwise it is 2 exactly when zero messages
were PROCESSED in total (which subsumes the case of zero qualifying
folders), and 0 otherwise.  The run total counts every processed
message regardless of outcome — a skipped message still increments it —
so a run in which every processed message is skipped exits 0, not 2. -/
theorem C1_exit_status : ∀ (src dst : String) (fs : Option Dir) (cfg : RunCfg),
    (main_run src dst fs (noIntr cfg) = 1 ↔
      (src = "" ∨ fs = none ∨ dst = "")) ∧
    (main_run src dst fs (noIntr cfg) = 2 ↔
      (src ≠ "" ∧ fs ≠ none ∧ dst ≠ "" ∧ runTotal src fs (noIntr cfg) = 0)) ∧
    (main_run src dst fs (noIntr cfg) = 0 ↔
      (src ≠ "" ∧ fs ≠ none ∧ dst ≠ "" ∧ runTotal src fs (noIntr cfg) ≠ 0)) ∧
    (∀ t : Dir, runTotal src (some t) (noIntr cfg) =
      ((findMaildirPairs src t).map fun p =>
        (folderKeys (noIntr cfg) p.1 p.2).length).sum) := by
  intro src dst fs cfg
  refine ⟨?_, ?_, ?_, fun t2 => (convert_noIntr src cfg t2).2.1⟩ <;>
    rcases fs with _ | t
  · rw [main_run_none]
    simp
  · have hab := (convert_noIntr src cfg t).1
    rw [main_run_some src dst t (noIntr cfg) hab]
    by_cases hs : src = ""
    · simp [hs]
    · by_cases hd : dst = ""
      · simp [hs, hd]
      · by_cases ht : (convert_maildir src (noIntr cfg) t).1 = 0 <;>
          simp [hs, hd, ht]
  · rw [main_run_none]
    simp
  · have hab := (convert_noIntr src cfg t).1
    rw [main_run_some src dst t (noIntr cfg) hab]
    by_cases hs : src = ""
    · simp [hs]
    · by_cases hd : dst = ""
      · simp [hs, hd]
      · by_cases ht : (convert_maildir src (noIntr cfg) t).1 = 0 <;>
          simp [hs, hd, ht, runTotal]
  · rw [main_run_none]
    simp
  · have hab := (convert_noIntr src cfg t).1
    rw [main_run_some src dst t (noIntr cfg) hab]
    by_cases hs : src = ""
    · simp [hs]
    · by_cases hd : dst = ""
      · simp [hs, hd]
      · by_cases ht : (convert_maildir src (noIntr cfg) t).1 = 0 <;>
          simp [hs, hd, ht, runTotal]

/-- Witness for C1: the exit-status-1 characterization at a concrete
empty source input. -/
theorem C1_exit_status_witness :
    main_run "" "/d" (some t0) (noIntr cfg0) = 1 ↔
      (("" : String) = "" ∨ (some t0 : Option Dir) = none ∨
        ("/d" : String) = "") :=
  (C1_exit_status "" "/d" (some t0) cfg0).1

/-- Counterexample to claim C1 as stated: a concrete run whose single
message is processed but skipped (nothing is written) exits with status
0, because the run total counts processed messages, not written ones;
the claim says such a run exits with status 2. -/
theorem C1_skip_run_counterexample :
    main_run "/s" "/d" (some t0) cfg0 = 0 ∧
    (convert_maildir "/s" cfg0 t0).2.1 =
      [⟨[], "Inbox.mbox", ["m1"],
        [.append "m1" .SKIP, .flushTry true, .closeTry true], ⟨1, 0, 0, 1⟩⟩] ∧
    main_run "/s" "/d" (some t0) cfg0 ≠ 2 := by decide

/-- Claim C7: after a folder is processed, `count` equals the number of
keys processed and `count = ok + raw + skip`; every processed key bumps
`count` by one and exactly one of the three outcome counters by one.
The same counter invariants hold for every folder of a whole run. -/
theorem C7_counters : ∀ (ops : String → MsgOps) (fOk : Nat → Bool) (ffOk cOk : Bool)
    (keys : List String) (root : String) (cfg : RunCfg) (t : Dir)
    (c : Counts) (o : Outcome),
    ((runFolder ops (fun _ => false) fOk ffOk cOk keys).2.1.count = keys.length ∧
     (runFolder ops (fun _ => false) fOk ffOk cOk keys).2.1.count =
       (runFolder ops (fun _ => false) fOk ffOk cOk keys).2.1.ok +
         (runFolder ops (fun _ => false) fOk ffOk cOk keys).2.1.raw +
         (runFolder ops (fun _ => false) fOk ffOk cOk keys).2.1.skip) ∧
    ((convert_maildir root (noIntr cfg) t).2.1.all fun fr =>
      (fr.counts.count == fr.keys.length) &&
      (fr.counts.count == fr.counts.ok + fr.counts.raw + fr.counts.skip)) = true ∧
    ((c.step o).count = c.count + 1 ∧
     (c.step o).ok + (c.step o).raw + (c.step o).skip =
       c.ok + c.raw + c.skip + 1) := by
  intro ops fOk ffOk cOk keys root cfg t c o
  have hk := runKeys_noIntr ops fOk keys Counts.zero
  have h1 : (runFolder ops (fun _ => false) fOk ffOk cOk keys).2.1.count =
      Counts.zero.count + keys.length := hk.2.1
  have h2 : (runFolder ops (fun _ => false) fOk ffOk cOk keys).2.1.ok +
        (runFolder ops (fun _ => false) fOk ffOk cOk keys).2.1.raw +
        (runFolder ops (fun _ => false) fOk ffOk cOk keys).2.1.skip =
      Counts.zero.ok + Counts.zero.raw + Counts.zero.skip + keys.length := hk.2.2
  have hz1 : Counts.zero.count = 0 := rfl
  have hz2 : Counts.zero.ok = 0 := rfl
  have hz3 : Counts.zero.raw = 0 := rfl
  have hz4 : Counts.zero.skip = 0 := rfl
  exact ⟨⟨by omega, by omega⟩, (convert_noIntr root cfg t).2.2,
    counts_step_count c o, counts_step_sum c o⟩

/-- Witness for C7: the whole-run counter invariant at a concrete run. -/
theorem C7_counters_witness :
    ((convert_maildir "/s" (noIntr cfg0) t0).2.1.all fun fr =>
      (fr.counts.count == fr.keys.length) &&
      (fr.counts.count == fr.counts.ok + fr.counts.raw + fr.counts.skip)) = true :=
  (C7_counters (fun _ => ⟨false, false, false, false⟩) (fun _ => true) true true
    ["m1"] "/s" cfg0 t0 Counts.zero .OK).2.1

/-- Claim C8: the folder trace always ends with one flush attempt
followed by one close attempt — also when an exception aborts the key
loop mid-folder; the loop itself flushes once per 200 processed
messages; and the success or failure of every flush and close attempt
changes nothing else about the run: total, abort flag, and each
folder's identity, name, keys, counters and appended records are
identical under any flush/close oracles, so a flush or close failure
never prevents processing of the remaining folders. -/
theorem C8_flush_close : ∀ (ops : String → MsgOps) (intr : Nat → Bool)
    (fOk : Nat → Bool) (ffOk cOk : Bool) (keys : List String)
    (root : String) (cfg : RunCfg) (f1 f2 : List String → Nat → Bool)
    (g1 h1 g2 h2 : List String → Bool) (t : Dir),
    ((runFolder ops intr fOk ffOk cOk keys).1.getLast? = some (.closeTry cOk) ∧
     (runFolder ops intr fOk ffOk cOk keys).1.dropLast.getLast? =
       some (.flushTry ffOk)) ∧
    (runKeys ops (fun _ => false) fOk keys Counts.zero).1.countP isFlush =
      keys.length / 200 ∧
    ((convert_maildir root (withFlush cfg f1 g1 h1) t).1 =
       (convert_maildir root (withFlush cfg f2 g2 h2) t).1 ∧
     (convert_maildir root (withFlush cfg f1 g1 h1) t).2.2 =
       (convert_maildir root (withFlush cfg f2 g2 h2) t).2.2 ∧
     ((convert_maildir root (withFlush cfg f1 g1 h1) t).2.1.map frKey) =
       ((convert_maildir root (withFlush cfg f2 g2 h2) t).2.1.map frKey)) := by
  intro ops intr fOk ffOk cOk keys root cfg f1 f2 g1 h1 g2 h2 t
  refine ⟨runFolder_last ops intr fOk ffOk cOk keys, ?_,
    convert_indep root cfg f1 f2 g1 h1 g2 h2 t⟩
  have h := runKeys_flushCount ops fOk keys Counts.zero
  have hz : Counts.zero.count = 0 := rfl
  rw [h, hz]
  simp

/-- Witness for C8: the per-200 flush count at a concrete one-message
folder. -/
theorem C8_flush_close_witness :
    (runKeys (fun _ => (⟨false, false, false, false⟩ : MsgOps)) (fun _ => false)
        (fun _ => true) ["m1"] Counts.zero).1.countP isFlush =
      (["m1"] : List String).length / 200 :=
  (C8_flush_close (fun _ => ⟨false, false, false, false⟩) (fun _ => false)
    (fun _ => true) true true ["m1"] "/s" cfg0 (fun _ _ => true)
    (fun _ _ => true) (fun _ => true) (fun _ => true) (fun _ => true)
    (fun _ => true) t0).2.1

end MaildirToMbox
